import Mathlib

/-!
Verification of the agstash command-line utility.

The Go sources are shallowly embedded as follows.

* A Go string is a `List Char` (the repository only handles ASCII content,
  where Go's byte length coincides with the character count); path segments
  stay as Lean `String` since they are only compared for equality.
* A filesystem path is a `List String` of segments in reverse order: the
  head is the deepest segment, and `filepath.Dir` is `List.tail`.  The Go
  path `/proj/AGENTS.md` is `[agentsFileName, proj]`.
* The filesystem is a partial map from paths to nodes (`dir` or
  `file content`); `os.Stat` success is membership, `os.ReadFile` only
  succeeds on `file` nodes, `os.WriteFile` fails on a `dir` node and
  otherwise updates the map, `os.MkdirAll` follows Go's semantics
  (early success on an existing directory, failure on a file in the way,
  recursive creation otherwise).  Environmental I/O failures (disk full,
  permissions) are not modelled.
* Fallible Go functions return `Except AgStashError`; a Go panic or a
  failed `utils.Assert` is the `fault` outcome of `Res`, distinct from
  every error result, and `IsValidAgents`'s size-ceiling panic is the
  `none` of its `Option Bool` result.
-/

namespace Agstash

/-! ### String literals of the source -/

def emptyStr : String := ""

def agentsFileName : String := "AGENTS.md"

def gitDirName : String := ".git"

def gitignoreName : String := ".gitignore"

def agstashDirName : String := ".agstash"

def stashesDirName : String := "stashes"

def stashNamePre : String := "stash-"

def stashTailStr : String := "tash-"

def mdSuffixStr : String := ".md"

def rootNameStr : String := "/"

def headerStr : String := "# AGENTS"

def msgTooLarge : String := "Content too large to process safely"

def msgProjectNameEmpty : String := "Project name should not be empty"

def msgProjectNameAssert : String := "projectName should not be empty"

def msgStashContentEmpty : String := "stashContent should not be empty"

def msgStashShouldExist : String := "Stash file path should exist"

def msgAgentsContentAssert : String := "agentsContent should not be empty"

def yStr : String := "y"

def yesStr : String := "yes"

def yeStr : String := "ye"

def yepStr : String := "yep"

def yeahStr : String := "yeah"

def wsStr : String := "   \n\t"

def agentsBareStr : String := "AGENTS"

def spaceAgentStr : String := " # AGENT"

def noHeaderStr : String := "no header here"

def emptyTemplateStr : String := "# AGENTS\n\n\n"

def defaultTemplateStr : String :=
  "# AGENTS\n\n- be concise and factual.\n- always test after changes are made.\n- create tests after a new feature is added.\n"

def sCh : Char := 's'

/-- Character list of a Go string value. -/
def chars (s : String) : List Char := s.data

/-! ### ContentValidator (internal/utils IsValidAgents, basicValidation) -/

/-- The whitespace cut set of the Go call `strings.TrimLeft(content, " \t\n\r")`. -/
def isSpaceChar (c : Char) : Bool := c = ' ' || c = '\t' || c = '\n' || c = '\r'

/-- Embeds `strings.TrimLeft(content, " \t\n\r")`. -/
def trimLeftSpace (l : List Char) : List Char := l.dropWhile isSpaceChar

/-- Embeds `strings.HasPrefix(s, p)` (first argument the string, second the candidate). -/
def hasPrefix : List Char → List Char → Bool
  | _, [] => true
  | [], _ :: _ => false
  | c :: cs, p :: ps => c == p && hasPrefix cs ps

/-- Embeds `basicValidation` of internal/utils: the trimmed content must start
with the literal header. -/
def basicValidation (content : List Char) : Bool :=
  hasPrefix (trimLeftSpace content) (chars headerStr)

/-- The Go size ceiling `10_000_000`. -/
def sizeLimit : Nat := 10000000

/-- Embeds `IsValidAgents` of internal/utils.  `some b` is a normal boolean
return; `none` models the Go `panic("Content too large to process safely")`
taken when the length reaches the ceiling.  The empty-content test comes
first, exactly as in the source. -/
def IsValidAgents (content : List Char) : Option Bool :=
  if content = [] then some false
  else if sizeLimit ≤ content.length then none
  else some (basicValidation content)

/-! ### Basic lemmas about the validator -/

theorem isValidAgents_eq_some_true_iff (c : List Char) :
    IsValidAgents c = some true ↔
      c ≠ [] ∧ c.length < sizeLimit ∧ basicValidation c = true := by
  unfold IsValidAgents
  by_cases h1 : c = []
  · subst h1; simp
  · rw [if_neg h1]
    by_cases h2 : sizeLimit ≤ c.length
    · rw [if_pos h2]
      simp only [reduceCtorEq, false_iff, not_and]
      intro _ hlt
      omega
    · rw [if_neg h2]
      have h2' : c.length < sizeLimit := Nat.lt_of_not_le h2
      simp [h1, h2']

theorem isValidAgents_none_of_large (c : List Char) (h : sizeLimit ≤ c.length) :
    IsValidAgents c = none := by
  have hne : c ≠ [] := by
    intro hc
    subst hc
    simp [sizeLimit] at h
  unfold IsValidAgents
  rw [if_neg hne, if_pos h]

theorem isValidAgents_ne_none_of_small (c : List Char) (h : c.length < sizeLimit) :
    IsValidAgents c ≠ none := by
  unfold IsValidAgents
  by_cases h1 : c = []
  · simp [h1]
  · rw [if_neg h1, if_neg (Nat.not_le_of_lt h)]
    simp

theorem ne_nil_of_isValidAgents_true {c : List Char}
    (h : IsValidAgents c = some true) : c ≠ [] :=
  ((isValidAgents_eq_some_true_iff c).mp h).1

theorem hasPrefix_nil (s : List Char) : hasPrefix s [] = true := by
  cases s <;> rfl

theorem hasPrefix_append (p t : List Char) : hasPrefix (p ++ t) p = true := by
  induction p with
  | nil => exact hasPrefix_nil t
  | cons a as ih => simp [hasPrefix, ih]

theorem dropWhile_append_of_all {p : Char → Bool} {l₁ : List Char}
    (h : ∀ a ∈ l₁, p a = true) (l₂ : List Char) :
    (l₁ ++ l₂).dropWhile p = l₂.dropWhile p := by
  induction l₁ with
  | nil => rfl
  | cons a as ih =>
      have ha : p a = true := h a (by simp)
      simp only [List.cons_append, List.dropWhile_cons, ha, if_true]
      exact ih fun b hb => h b (by simp [hb])

theorem trimLeftSpace_ws_append (s : List Char) :
    trimLeftSpace (chars wsStr ++ s) = trimLeftSpace s := by
  unfold trimLeftSpace
  exact dropWhile_append_of_all (by decide) s

/-- The large character string of the size-ceiling tests: a valid header
followed by filler, of total length 9 999 999. -/
def bigAgents : List Char := chars headerStr ++ List.replicate 9999991 'a'

theorem bigAgents_length : bigAgents.length = 9999999 := by
  unfold bigAgents
  rw [List.length_append, List.length_replicate]
  rfl

def headerTailStr : String := " AGENTS"

theorem header_chars_cons : chars headerStr = '#' :: chars headerTailStr := by decide

theorem trimLeftSpace_header_append (r : List Char) :
    trimLeftSpace (chars headerStr ++ r) = chars headerStr ++ r := by
  show List.dropWhile isSpaceChar (chars headerStr ++ r) = chars headerStr ++ r
  rw [header_chars_cons, List.cons_append, List.dropWhile_cons]
  simp [isSpaceChar]

theorem basicValidation_header_append (r : List Char) :
    basicValidation (chars headerStr ++ r) = true := by
  unfold basicValidation
  rw [trimLeftSpace_header_append]
  exact hasPrefix_append _ _

theorem isValidAgents_bigAgents : IsValidAgents bigAgents = some true := by
  rw [isValidAgents_eq_some_true_iff]
  refine ⟨?_, ?_, ?_⟩
  · unfold bigAgents
    intro h
    have := congrArg List.length h
    rw [List.length_append, List.length_replicate] at this
    simp at this
  · rw [bigAgents_length]; decide
  · exact basicValidation_header_append _

/-! ### Data model: paths, nodes, the filesystem -/

/-- A filesystem path as its segments in reverse order: the head is the
deepest segment, `filepath.Dir` is `List.tail`, and the filesystem root is
the empty list. -/
abbrev Path := List String

/-- A filesystem node: a directory or a file with its textual content. -/
inductive Node : Type where
  | dir : Node
  | file (content : List Char) : Node
  deriving DecidableEq

/-- The filesystem state: a partial map from paths to nodes. -/
abbrev FS := Path → Option Node

/-- The error kinds of internal/utils errors.go.  The wrapped messages and
underlying causes are not needed by any claim and are not modelled. -/
inductive AgStashError : Type where
  | projectRootNotFound
  | homeDirNotFound
  | invalidAgentsContent
  | ioError
  deriving DecidableEq

/-- Outcome of a command handler: either a normal Go return (the updated
filesystem and an `error` value) or a process-aborting fault (a panic or a
failed `utils.Assert`). -/
inductive Res (α : Type) : Type where
  | done (fs : FS) (r : Except AgStashError α)
  | fault (msg : String)

/-- Whether a handler outcome is a non-error, non-fault return. -/
def isSuccess {α : Type} : Res α → Bool
  | .done _ (.ok _) => true
  | _ => false

/-- Modelled from the spec: the definition of `utils.Assert` is not under
src (only its call sites appear there).  Per the spec, failed internal
preconditions are unrecoverable faults that abort immediately rather than
ordinary errors, so `Assert` yields the `fault` outcome when its condition
fails and otherwise continues with `k`. -/
def Assert {α : Type} (cond : Bool) (msg : String) (k : Res α) : Res α :=
  if cond then k else .fault msg

/-! ### FileStore (internal/utils file helpers) -/

/-- Embeds `FileExists` (an `os.Stat` success test; directories count). -/
def FileExists (fs : FS) (p : Path) : Bool := (fs p).isSome

/-- Embeds `ReadFile`: whole-file read, an I/O error on a missing path or a
directory. -/
def ReadFile (fs : FS) (p : Path) : Except AgStashError (List Char) :=
  match fs p with
  | some (.file c) => .ok c
  | _ => .error .ioError

/-- Point update of the filesystem map. -/
def updateFS (fs : FS) (p : Path) (n : Node) : FS :=
  fun q => if q = p then some n else fs q

/-- Embeds `WriteFile` (`os.WriteFile`): create-or-truncate; fails when a
directory occupies the path. -/
def WriteFile (fs : FS) (p : Path) (c : List Char) : Except AgStashError FS :=
  match fs p with
  | some .dir => .error .ioError
  | _ => .ok (updateFS fs p (.file c))

/-- Embeds `CopyFile`: read the whole source, then write the destination. -/
def CopyFile (fs : FS) (src dst : Path) : Except AgStashError FS :=
  match ReadFile fs src with
  | .error e => .error e
  | .ok c => WriteFile fs dst c

/-- Embeds `os.MkdirAll`: immediate success on an existing directory,
failure on a file in the way, otherwise create the parents recursively and
then the directory itself.  Returns the (possibly partially extended)
filesystem together with an optional error. -/
def mkdirAll (fs : FS) : Path → FS × Option AgStashError
  | [] => (fs, none)
  | s :: parent =>
    match fs (s :: parent) with
    | some .dir => (fs, none)
    | some (.file _) => (fs, some .ioError)
    | none =>
      match mkdirAll fs parent with
      | (fs1, some e) => (fs1, some e)
      | (fs1, none) => (updateFS fs1 (s :: parent) .dir, none)

/-! ### PathResolver (internal/utils GetProjectRoot, GetStashPath) -/

/-- Whether a candidate directory contains a `.git` or `.gitignore` entry
(the two `os.Stat` probes of `GetProjectRoot`). -/
def hasMarker (fs : FS) (p : Path) : Bool :=
  FileExists fs (gitDirName :: p) || FileExists fs (gitignoreName :: p)

/-- The upward walk of `GetProjectRoot`: check the current candidate, stop
when the parent equals the candidate (the filesystem root), otherwise move
to the parent. -/
def findRoot (fs : FS) : Path → Option Path
  | [] => if hasMarker fs [] then some [] else none
  | s :: rest => if hasMarker fs (s :: rest) then some (s :: rest) else findRoot fs rest

/-- Embeds `GetProjectRoot`, with the working directory (the result of
`os.Getwd`, whose own failure mode is environmental and not modelled)
passed explicitly. -/
def GetProjectRoot (fs : FS) (cwd : Path) : Except AgStashError Path :=
  match findRoot fs cwd with
  | some r => .ok r
  | none => .error .projectRootNotFound

/-- Embeds `filepath.Base` on an absolute path: the last segment, or `/`
for the filesystem root. -/
def baseName : Path → String
  | [] => rootNameStr
  | s :: _ => s

/-- The file name `stash-<projectName>.md`. -/
def stashFileName (projectName : String) : String :=
  stashNamePre ++ projectName ++ mdSuffixStr

/-- The directory `<home>/.agstash/stashes`. -/
def stashesDirOf (home : Path) : Path :=
  stashesDirName :: agstashDirName :: home

/-- The path `<home>/.agstash/stashes/stash-<projectName>.md`. -/
def stashPathFor (home : Path) (projectName : String) : Path :=
  stashFileName projectName :: stashesDirOf home

/-- Outcome of `GetStashPath`: a path plus the filesystem as possibly
extended by `os.MkdirAll`, an error, or the empty-name panic. -/
inductive PathRes : Type where
  | ok (fs : FS) (p : Path)
  | err (fs : FS) (e : AgStashError)
  | fault (msg : String)

/-- Embeds `GetStashPath`: panic on an empty project name, resolve the home
directory (given as `none` when `os.UserHomeDir` fails), ensure the stashes
directory exists, and return the per-project stash path. -/
def GetStashPath (home : Option Path) (fs : FS) (projectName : String) : PathRes :=
  if projectName = emptyStr then .fault msgProjectNameEmpty
  else
    match home with
    | none => .err fs .homeDirNotFound
    | some h =>
      match mkdirAll fs (stashesDirOf h) with
      | (fs1, some e) => .err fs1 e
      | (fs1, none) => .ok fs1 (stashPathFor h projectName)

/-! ### StashOperations (internal/commands) -/

/-- Map of `strings.ToLower` over the line. -/
def toLowerList (l : List Char) : List Char := l.map Char.toLower

/-- Embeds `strings.TrimSpace`: strip leading and trailing whitespace. -/
def trimSpaceList (l : List Char) : List Char :=
  ((l.dropWhile isSpaceChar).reverse.dropWhile isSpaceChar).reverse

/-- The affirmative answers accepted by `getUserConfirmation`. -/
def isAffirmative (l : List Char) : Bool :=
  l == chars yStr || l == chars yesStr || l == chars yeStr ||
    l == chars yepStr || l == chars yeahStr

/-- Embeds `getUserConfirmation`: one line read from standard input
(`none` models end-of-input, where `scanner.Scan()` is false with a nil
error), lower-cased, trimmed, and compared against the affirmative set;
everything else declines. -/
def getUserConfirmation (input : Option (List Char)) : Bool :=
  match input with
  | none => false
  | some line => isAffirmative (trimSpaceList (toLowerList line))

/-- The path `<dir>/AGENTS.md`. -/
def agentsPathOf (dir : Path) : Path := agentsFileName :: dir

/-- Embeds `HandleInit` (the header-only template variant of
internal/commands): prompt before overwriting an existing file unless
forced, then write the fixed template.  A decline is a success with no
write. -/
def HandleInit (force : Bool) (input : Option (List Char)) (cwd : Path) (fs : FS) :
    Res Unit :=
  let agentsFilePath := agentsPathOf cwd
  let needsConfirmation := FileExists fs agentsFilePath && !force
  if needsConfirmation && !getUserConfirmation input then .done fs (.ok ())
  else
    Assert (!(chars emptyTemplateStr).isEmpty) msgAgentsContentAssert <|
    match WriteFile fs agentsFilePath (chars emptyTemplateStr) with
    | .error e => .done fs (.error e)
    | .ok fs1 => .done fs1 (.ok ())

/-- Embeds `HandleStash`: resolve the project root, read the local
AGENTS.md, gate on the validator, then copy it to the stash path.  The
always-true assertions on rendered path strings (a rendered absolute path
is never the empty string) are not modelled; the project-name assertion
is. -/
def HandleStash (home : Option Path) (cwd : Path) (fs : FS) : Res Unit :=
  match GetProjectRoot fs cwd with
  | .error e => .done fs (.error e)
  | .ok root =>
    let projectName := baseName root
    Assert (projectName != emptyStr) msgProjectNameAssert <|
    let agentsPath := agentsPathOf root
    if !FileExists fs agentsPath then .done fs (.ok ())
    else
      match ReadFile fs agentsPath with
      | .error e => .done fs (.error e)
      | .ok agentsContent =>
        match IsValidAgents agentsContent with
        | none => .fault msgTooLarge
        | some false => .done fs (.ok ())
        | some true =>
          match GetStashPath home fs projectName with
          | .fault m => .fault m
          | .err fs1 e => .done fs1 (.error e)
          | .ok fs1 stashPath =>
            match CopyFile fs1 agentsPath stashPath with
            | .error e => .done fs1 (.error e)
            | .ok fs2 => .done fs2 (.ok ())

/-- Embeds `applyStashContent`: assert the stash file exists, read it,
assert the content is non-empty, gate on the validator, then copy it over
the project's AGENTS.md. -/
def applyStashContent (fs : FS) (stashFilePath agentsMdFilePath : Path) : Res Unit :=
  Assert (FileExists fs stashFilePath) msgStashShouldExist <|
  match ReadFile fs stashFilePath with
  | .error e => .done fs (.error e)
  | .ok stashContent =>
    Assert (!stashContent.isEmpty) msgStashContentEmpty <|
    match IsValidAgents stashContent with
    | none => .fault msgTooLarge
    | some false => .done fs (.ok ())
    | some true =>
      match CopyFile fs stashFilePath agentsMdFilePath with
      | .error e => .done fs (.error e)
      | .ok fs2 => .done fs2 (.ok ())

/-- Embeds `HandleApply`: resolve the project root and the stash path, stop
successfully when no stash exists, prompt before overwriting an existing
local file unless forced (a decline cancels with success), then validate
and apply the stashed content. -/
def HandleApply (home : Option Path) (input : Option (List Char)) (force : Bool)
    (cwd : Path) (fs : FS) : Res Unit :=
  match GetProjectRoot fs cwd with
  | .error e => .done fs (.error e)
  | .ok root =>
    let projectName := baseName root
    Assert (projectName != emptyStr) msgProjectNameAssert <|
    match GetStashPath home fs projectName with
    | .fault m => .fault m
    | .err fs1 e => .done fs1 (.error e)
    | .ok fs1 stashFilePath =>
      let agentsMdFilePath := agentsPathOf root
      if !FileExists fs1 stashFilePath then .done fs1 (.ok ())
      else
        let needsConfirmation := FileExists fs1 agentsMdFilePath && !force
        if needsConfirmation && !getUserConfirmation input then .done fs1 (.ok ())
        else applyStashContent fs1 stashFilePath agentsMdFilePath

/-! ### Root-discovery lemmas -/

theorem findRoot_eq_none_iff (fs : FS) :
    ∀ cwd, findRoot fs cwd = none ↔ ∀ p, p <:+ cwd → hasMarker fs p = false := by
  intro cwd
  induction cwd with
  | nil =>
      by_cases hm : hasMarker fs []
      · simp [findRoot, hm, List.suffix_nil]
      · have hm' : hasMarker fs [] = false := by simpa using hm
        simp [findRoot, hm', List.suffix_nil]
  | cons s rest ih =>
      by_cases hm : hasMarker fs (s :: rest)
      · simp [findRoot, hm, List.suffix_cons_iff]
      · have hm' : hasMarker fs (s :: rest) = false := by simpa using hm
        have hstep : findRoot fs (s :: rest) = findRoot fs rest := by
          simp [findRoot, hm']
        rw [hstep, ih]
        constructor
        · intro h p hp
          rcases (List.suffix_cons_iff.mp hp) with rfl | hp'
          · exact hm'
          · exact h p hp'
        · intro h p hp
          exact h p (List.suffix_cons_iff.mpr (Or.inr hp))

theorem findRoot_eq_some_spec (fs : FS) :
    ∀ cwd r, findRoot fs cwd = some r →
      r <:+ cwd ∧ hasMarker fs r = true ∧
        ∀ q, q <:+ cwd → hasMarker fs q = true → q <:+ r := by
  intro cwd
  induction cwd with
  | nil =>
      intro r h
      by_cases hm : hasMarker fs []
      · simp only [findRoot, hm, if_true, Option.some.injEq] at h
        subst h
        exact ⟨List.suffix_rfl, hm, fun q hq _ => hq⟩
      · simp [findRoot, hm] at h
  | cons s rest ih =>
      intro r h
      by_cases hm : hasMarker fs (s :: rest)
      · simp only [findRoot, hm, if_true, Option.some.injEq] at h
        subst h
        exact ⟨List.suffix_rfl, hm, fun q hq _ => hq⟩
      · simp only [findRoot, hm, if_false] at h
        obtain ⟨hsuf, hmr, hmax⟩ := ih r h
        refine ⟨hsuf.trans (List.suffix_cons s rest), hmr, ?_⟩
        intro q hq hqm
        rcases List.suffix_cons_iff.mp hq with rfl | hq'
        · exact absurd hqm (by simpa using hm)
        · exact hmax q hq' hqm

/-! ### Claim C4 -/

/-- C4: `GetProjectRoot` walks upward from the working directory; it fails
with `ProjectRootNotFound` exactly when no candidate directory up to the
filesystem root carries a `.git` or `.gitignore` marker, and any returned
root is the nearest (deepest) marked candidate: it is an ancestor-or-self
of the working directory, it carries a marker, and every marked
ancestor-or-self is an ancestor-or-self of it. -/
theorem projectRoot_discovery_spec (fs : FS) (cwd : Path) :
    (GetProjectRoot fs cwd = .error .projectRootNotFound ↔
      ∀ p, p <:+ cwd → hasMarker fs p = false) ∧
    (∀ r, GetProjectRoot fs cwd = .ok r →
      r <:+ cwd ∧ hasMarker fs r = true ∧
        ∀ q, q <:+ cwd → hasMarker fs q = true → q <:+ r) := by
  constructor
  · rw [← findRoot_eq_none_iff]
    unfold GetProjectRoot
    cases findRoot fs cwd <;> simp
  · intro r hr
    apply findRoot_eq_some_spec fs cwd r
    unfold GetProjectRoot at hr
    cases h : findRoot fs cwd <;> rw [h] at hr <;> simp_all

/-! ### Concrete filesystems used by the witnesses -/

def projSeg : String := "proj"

def subSeg : String := "sub"

def homeSeg : String := "home"

/-- A filesystem whose only entry is a `.git` directory in `/proj`. -/
def fsMarkW : FS := fun q => if q = [gitDirName, projSeg] then some Node.dir else none

theorem projectRoot_discovery_witness : hasMarker fsMarkW [projSeg] = true :=
  ((projectRoot_discovery_spec fsMarkW [subSeg, projSeg]).2 [projSeg] rfl).2.1

/-! ### Claim C2 -/

/-- C2 counterexample: `bigAgents` (length 9 999 999) passes the validator,
but prepending the five whitespace characters pushes it to length
10 000 004, which triggers the size-ceiling panic (`none`) instead of
returning true. -/
theorem validator_ws_prepend_counterexample :
    IsValidAgents bigAgents = some true ∧
      IsValidAgents (chars wsStr ++ bigAgents) = none := by
  refine ⟨isValidAgents_bigAgents, isValidAgents_none_of_large _ ?_⟩
  have h5 : (chars wsStr).length = 5 := by decide
  rw [List.length_append, h5, bigAgents_length]
  decide

/-- C2 (amended): prepending the whitespace characters preserves acceptance
for every passing string whose prefixed form stays below the 10 000 000
ceiling; the empty string, `AGENTS` and ` # AGENT` are all rejected. -/
theorem validator_ws_prepend_amended :
    (∀ s, IsValidAgents s = some true →
      s.length + (chars wsStr).length < sizeLimit →
      IsValidAgents (chars wsStr ++ s) = some true) ∧
    IsValidAgents (chars emptyStr) = some false ∧
    IsValidAgents (chars agentsBareStr) = some false ∧
    IsValidAgents (chars spaceAgentStr) = some false := by
  refine ⟨?_, by decide, by decide, by decide⟩
  intro s hs hlen
  obtain ⟨hne, _, hbv⟩ := (isValidAgents_eq_some_true_iff s).mp hs
  rw [isValidAgents_eq_some_true_iff]
  refine ⟨?_, ?_, ?_⟩
  · intro h
    rw [List.append_eq_nil] at h
    exact absurd h.1 (by decide)
  · rw [List.length_append]
    omega
  · unfold basicValidation
    rw [trimLeftSpace_ws_append]
    exact hbv

theorem validator_ws_prepend_amended_witness :
    IsValidAgents (chars wsStr ++ chars headerStr) = some true :=
  validator_ws_prepend_amended.1 (chars headerStr) (by decide) (by decide)

/-! ### Claim C3 -/

/-- C3: every string whose length reaches 10 000 000 triggers the
size-ceiling panic (modelled as `none`) regardless of content; every string
of length at most 9 999 999 never panics; and the concrete 9 999 999-long
string starting with the header is accepted. -/
theorem validator_size_ceiling :
    (∀ s : List Char, sizeLimit ≤ s.length → IsValidAgents s = none) ∧
    (∀ s : List Char, s.length ≤ 9999999 → IsValidAgents s ≠ none) ∧
    IsValidAgents bigAgents = some true ∧ bigAgents.length = 9999999 := by
  refine ⟨isValidAgents_none_of_large, ?_, isValidAgents_bigAgents, bigAgents_length⟩
  intro s h
  apply isValidAgents_ne_none_of_small
  have hsz : sizeLimit = 10000000 := rfl
  omega

theorem validator_size_ceiling_witness :
    IsValidAgents (List.replicate sizeLimit 'a') = none ∧
      IsValidAgents (chars headerStr) ≠ none :=
  ⟨validator_size_ceiling.1 _ (by simp [List.length_replicate]),
    validator_size_ceiling.2.1 _ (by decide)⟩

/-! ### FileStore and handler reduction lemmas -/

theorem readFile_eq_ok_iff (fs : FS) (p : Path) (c : List Char) :
    ReadFile fs p = .ok c ↔ fs p = some (.file c) := by
  unfold ReadFile
  cases h : fs p with
  | none => simp
  | some n => cases n <;> simp

theorem updateFS_self (fs : FS) (p : Path) (n : Node) : updateFS fs p n p = some n := by
  simp [updateFS]

theorem updateFS_ne (fs : FS) (p : Path) (n : Node) (q : Path) (h : q ≠ p) :
    updateFS fs p n q = fs q := by
  simp [updateFS, h]

theorem getStashPath_fast (hh : Path) (fs : FS) (p : String)
    (hp : p ≠ emptyStr) (hdir : fs (stashesDirOf hh) = some Node.dir) :
    GetStashPath (some hh) fs p = .ok fs (stashPathFor hh p) := by
  unfold stashesDirOf at hdir
  simp [GetStashPath, stashesDirOf, mkdirAll, hdir, hp]

/-- Shared reduction: when the local AGENTS.md content fails validation,
`HandleStash` prints a warning and returns success without touching the
filesystem. -/
theorem handleStash_abort_invalid (home : Option Path) (cwd : Path) (fs : FS)
    (root : Path) (c : List Char)
    (h1 : GetProjectRoot fs cwd = .ok root)
    (h2 : baseName root ≠ emptyStr)
    (h3 : ReadFile fs (agentsPathOf root) = .ok c)
    (h4 : IsValidAgents c = some false) :
    HandleStash home cwd fs = .done fs (.ok ()) := by
  have hx : fs (agentsPathOf root) = some (.file c) := (readFile_eq_ok_iff _ _ _).mp h3
  have hb : (baseName root != emptyStr) = true := by simpa using h2
  have hfe : FileExists fs (agentsPathOf root) = true := by simp [FileExists, hx]
  simp only [HandleStash, h1, Assert, hb, if_true, hfe, Bool.not_true,
    Bool.false_eq_true, if_false, h3, h4]

/-- Shared reduction: when the stashed content is non-empty but fails
validation, `applyStashContent` prints a warning and returns success
without touching the filesystem. -/
theorem applyStashContent_abort_invalid (fs : FS) (sp ap : Path) (c : List Char)
    (hex : FileExists fs sp = true)
    (hrd : ReadFile fs sp = .ok c)
    (hne : c ≠ [])
    (hival : IsValidAgents c = some false) :
    applyStashContent fs sp ap = .done fs (.ok ()) := by
  have hci : c.isEmpty = false := by
    cases c with
    | nil => exact absurd rfl hne
    | cons a as => rfl
  simp [applyStashContent, Assert, hex, hrd, hci, hival]

/-- Shared reduction: when the root resolves, the stash path resolves, the
stash file exists, and the confirmation guard does not cancel, then
`HandleApply` hands over to `applyStashContent`. -/
theorem handleApply_reaches (home : Option Path) (input : Option (List Char))
    (force : Bool) (cwd : Path) (fs fs1 : FS) (root sp : Path)
    (h1 : GetProjectRoot fs cwd = .ok root)
    (h2 : baseName root ≠ emptyStr)
    (h3 : GetStashPath home fs (baseName root) = .ok fs1 sp)
    (h4 : FileExists fs1 sp = true)
    (h5 : ((FileExists fs1 (agentsPathOf root) && !force) && !getUserConfirmation input)
      = false) :
    HandleApply home input force cwd fs = applyStashContent fs1 sp (agentsPathOf root) := by
  have hb : (baseName root != emptyStr) = true := by simpa using h2
  simp only [HandleApply, h1, Assert, hb, if_true, h3, h4, Bool.not_true,
    Bool.false_eq_true, if_false, h5]

/-! ### Claim C1 -/

/-- A filesystem with a `/proj/.git` marker and an invalid (header-less)
`/proj/AGENTS.md`. -/
def fsInvalidW : FS := fun q =>
  if q = [gitDirName, projSeg] then some Node.dir
  else if q = agentsPathOf [projSeg] then some (Node.file (chars noHeaderStr))
  else none

/-- A filesystem with a `/proj/.git` marker, the stashes directory, and a
non-empty invalid stashed file for project `proj`. -/
def fsApplyInvalidW : FS := fun q =>
  if q = [gitDirName, projSeg] then some Node.dir
  else if q = stashesDirOf [homeSeg] then some Node.dir
  else if q = stashPathFor [homeSeg] projSeg then some (Node.file (chars noHeaderStr))
  else none

/-- A filesystem with a `/proj/.git` marker, the stashes directory, and an
empty stashed file for project `proj`. -/
def fsEmptyStashW : FS := fun q =>
  if q = [gitDirName, projSeg] then some Node.dir
  else if q = stashesDirOf [homeSeg] then some Node.dir
  else if q = stashPathFor [homeSeg] projSeg then some (Node.file [])
  else none

/-- C1 counterexample: applying a stash whose stored content is the empty
string does not take the warning-and-success path the claim describes; the
`stashContent` assertion fires first and the process aborts with a fault. -/
theorem validation_gate_empty_stash_counterexample :
    HandleApply (some [homeSeg]) none true [projSeg] fsEmptyStashW
        = Res.fault msgStashContentEmpty ∧
      isSuccess (HandleApply (some [homeSeg]) none true [projSeg] fsEmptyStashW)
        = false :=
  ⟨rfl, rfl⟩

/-- C1 (amended): both `stash` and `apply` gate the propagated content on
the same predicate `IsValidAgents` and, on failure, refuse to copy while
returning success — for `stash` this covers every failing content
including the empty string, while for `apply` it covers every non-empty
failing content (an empty stashed content instead aborts with the
fail-fast `stashContent` assertion before validation runs). -/
theorem validation_gate_stash_apply :
    (∀ (home : Option Path) (cwd : Path) (fs : FS) (root : Path) (c : List Char),
      GetProjectRoot fs cwd = .ok root →
      baseName root ≠ emptyStr →
      ReadFile fs (agentsPathOf root) = .ok c →
      IsValidAgents c = some false →
      HandleStash home cwd fs = .done fs (.ok ())) ∧
    (∀ (home : Option Path) (input : Option (List Char)) (force : Bool)
        (cwd : Path) (fs fs1 : FS) (root sp : Path) (c : List Char),
      GetProjectRoot fs cwd = .ok root →
      baseName root ≠ emptyStr →
      GetStashPath home fs (baseName root) = .ok fs1 sp →
      FileExists fs1 sp = true →
      ((FileExists fs1 (agentsPathOf root) && !force) && !getUserConfirmation input)
        = false →
      ReadFile fs1 sp = .ok c →
      c ≠ [] →
      IsValidAgents c = some false →
      HandleApply home input force cwd fs = .done fs1 (.ok ())) := by
  constructor
  · exact fun home cwd fs root c h1 h2 h3 h4 =>
      handleStash_abort_invalid home cwd fs root c h1 h2 h3 h4
  · intro home input force cwd fs fs1 root sp c h1 h2 h3 h4 h5 h6 h7 h8
    rw [handleApply_reaches home input force cwd fs fs1 root sp h1 h2 h3 h4 h5]
    exact applyStashContent_abort_invalid fs1 sp (agentsPathOf root) c h4 h6 h7 h8

theorem validation_gate_stash_apply_witness :
    HandleStash (some [homeSeg]) [projSeg] fsInvalidW = .done fsInvalidW (.ok ()) ∧
      HandleApply (some [homeSeg]) none false [projSeg] fsApplyInvalidW
        = .done fsApplyInvalidW (.ok ()) :=
  ⟨validation_gate_stash_apply.1 (some [homeSeg]) [projSeg] fsInvalidW [projSeg]
      (chars noHeaderStr) rfl (by decide) rfl (by decide),
    validation_gate_stash_apply.2 (some [homeSeg]) none false [projSeg]
      fsApplyInvalidW fsApplyInvalidW [projSeg] (stashPathFor [homeSeg] projSeg)
      (chars noHeaderStr) rfl (by decide) rfl rfl rfl rfl (by decide) (by decide)⟩

/-! ### Claim C5 -/

/-- C5: when the project root's AGENTS.md content fails validation,
`stash` completes successfully, the filesystem is returned unchanged, and
in particular no file appears at the computed stash path. -/
theorem stash_invalid_no_file_created (hh : Path) (cwd : Path) (fs : FS)
    (root : Path) (c : List Char)
    (h1 : GetProjectRoot fs cwd = .ok root)
    (h2 : baseName root ≠ emptyStr)
    (h3 : ReadFile fs (agentsPathOf root) = .ok c)
    (h4 : IsValidAgents c = some false)
    (h5 : fs (stashPathFor hh (baseName root)) = none) :
    HandleStash (some hh) cwd fs = .done fs (.ok ()) ∧
      fs (stashPathFor hh (baseName root)) = none :=
  ⟨handleStash_abort_invalid (some hh) cwd fs root c h1 h2 h3 h4, h5⟩

theorem stash_invalid_no_file_created_witness :
    HandleStash (some [homeSeg]) [projSeg] fsInvalidW = .done fsInvalidW (.ok ()) ∧
      fsInvalidW (stashPathFor [homeSeg] (baseName [projSeg])) = none :=
  stash_invalid_no_file_created [homeSeg] [projSeg] fsInvalidW [projSeg]
    (chars noHeaderStr) rfl (by decide) rfl (by decide) rfl

/-! ### Claim C9 -/

/-- C9: when the local AGENTS.md content fails validation, `stash` aborts
before `GetStashPath` runs, so the global store is untouched: the returned
filesystem is the input one and, when the stashes directory and the stash
file were absent before, they remain absent. -/
theorem stash_invalid_store_untouched (hh : Path) (cwd : Path) (fs : FS)
    (root : Path) (c : List Char)
    (h1 : GetProjectRoot fs cwd = .ok root)
    (h2 : baseName root ≠ emptyStr)
    (h3 : ReadFile fs (agentsPathOf root) = .ok c)
    (h4 : IsValidAgents c = some false)
    (h5 : fs (stashesDirOf hh) = none)
    (h6 : fs (stashPathFor hh (baseName root)) = none) :
    HandleStash (some hh) cwd fs = .done fs (.ok ()) ∧
      fs (stashesDirOf hh) = none ∧
      fs (stashPathFor hh (baseName root)) = none :=
  ⟨handleStash_abort_invalid (some hh) cwd fs root c h1 h2 h3 h4, h5, h6⟩

theorem stash_invalid_store_untouched_witness :
    HandleStash (some [homeSeg]) [projSeg] fsInvalidW = .done fsInvalidW (.ok ()) ∧
      fsInvalidW (stashesDirOf [homeSeg]) = none ∧
      fsInvalidW (stashPathFor [homeSeg] (baseName [projSeg])) = none :=
  stash_invalid_store_untouched [homeSeg] [projSeg] fsInvalidW [projSeg]
    (chars noHeaderStr) rfl (by decide) rfl (by decide) rfl rfl

/-! ### Claim C7 -/

/-- C7: with a local AGENTS.md present and no force flag, a declined
confirmation (any input outside the affirmative set; the last two
conjuncts record that end-of-input and the empty line decline) makes
`apply` return success with the filesystem — in particular the local
AGENTS.md content — unchanged. -/
theorem apply_decline_preserves_local (hh : Path) (input : Option (List Char))
    (cwd : Path) (fs : FS) (root : Path) (c : List Char)
    (h1 : GetProjectRoot fs cwd = .ok root)
    (h2 : baseName root ≠ emptyStr)
    (h3 : fs (stashesDirOf hh) = some Node.dir)
    (h4 : FileExists fs (stashPathFor hh (baseName root)) = true)
    (h5 : fs (agentsPathOf root) = some (Node.file c))
    (h6 : getUserConfirmation input = false) :
    HandleApply (some hh) input false cwd fs = .done fs (.ok ()) ∧
      fs (agentsPathOf root) = some (Node.file c) ∧
      getUserConfirmation none = false ∧
      getUserConfirmation (some []) = false := by
  have hb : (baseName root != emptyStr) = true := by simpa using h2
  have hsp := getStashPath_fast hh fs (baseName root) h2 h3
  have hfe : FileExists fs (agentsPathOf root) = true := by simp [FileExists, h5]
  refine ⟨?_, h5, rfl, by decide⟩
  simp only [HandleApply, h1, Assert, hb, if_true, hsp, h4, Bool.not_true,
    Bool.false_eq_true, if_false, hfe, Bool.not_false, Bool.true_and, h6]

def origStr : String := "original"

def nStr : String := "n"

/-- A filesystem with a `/proj/.git` marker, the stashes directory, a valid
stashed file, and a local `/proj/AGENTS.md` holding `original`. -/
def fsDeclW : FS := fun q =>
  if q = [gitDirName, projSeg] then some Node.dir
  else if q = stashesDirOf [homeSeg] then some Node.dir
  else if q = stashPathFor [homeSeg] projSeg then some (Node.file (chars emptyTemplateStr))
  else if q = agentsPathOf [projSeg] then some (Node.file (chars origStr))
  else none

theorem apply_decline_preserves_local_witness :
    HandleApply (some [homeSeg]) (some (chars nStr)) false [projSeg] fsDeclW
        = .done fsDeclW (.ok ()) ∧
      fsDeclW (agentsPathOf [projSeg]) = some (Node.file (chars origStr)) ∧
      getUserConfirmation none = false ∧
      getUserConfirmation (some []) = false :=
  apply_decline_preserves_local [homeSeg] (some (chars nStr)) [projSeg] fsDeclW
    [projSeg] (chars origStr) rfl (by decide) rfl rfl rfl (by decide)

def stashProjFileStr : String := "stash-proj.md"

/-- The stash path for project `proj` under home `/home`, written out as a
literal segment list. -/
def stashPathLitW : Path := [stashProjFileStr, stashesDirName, agstashDirName, homeSeg]

/-- A filesystem containing only the stashes directory. -/
def fsDirsW : FS := fun q => if q = stashesDirOf [homeSeg] then some Node.dir else none

/-! ### Claim C8 -/

/-- C8: for a non-empty project name the returned stash path is exactly
`<home>/.agstash/stashes/stash-<name>.md` (fourth conjunct spells the path
out), any two successful calls return the identical path regardless of the
filesystem state (determinism), and the empty project name is a fail-fast
fault, not an error result. -/
theorem stashPath_deterministic_spec :
    (∀ (hh : Path) (fs : FS) (p : String), p ≠ emptyStr →
      ∀ (fs' : FS) (q : Path), GetStashPath (some hh) fs p = .ok fs' q →
        q = stashPathFor hh p) ∧
    (∀ (hh : Path) (fs₁ fs₂ fs₁' fs₂' : FS) (p : String) (q₁ q₂ : Path),
      GetStashPath (some hh) fs₁ p = .ok fs₁' q₁ →
      GetStashPath (some hh) fs₂ p = .ok fs₂' q₂ → q₁ = q₂) ∧
    (∀ (home : Option Path) (fs : FS),
      GetStashPath home fs emptyStr = .fault msgProjectNameEmpty) ∧
    (∀ (hh : Path) (p : String),
      stashPathFor hh p =
        (stashNamePre ++ p ++ mdSuffixStr) :: stashesDirName :: agstashDirName :: hh) := by
  have hpath : ∀ (hh : Path) (fs : FS) (p : String), p ≠ emptyStr →
      ∀ (fs' : FS) (q : Path), GetStashPath (some hh) fs p = .ok fs' q →
        q = stashPathFor hh p := by
    intro hh fs p hp fs' q h
    unfold GetStashPath at h
    rw [if_neg hp] at h
    change (match mkdirAll fs (stashesDirOf hh) with
      | (fs1, some e) => PathRes.err fs1 e
      | (fs1, none) => PathRes.ok fs1 (stashPathFor hh p)) = PathRes.ok fs' q at h
    rcases hmk : mkdirAll fs (stashesDirOf hh) with ⟨fs1, e⟩
    rw [hmk] at h
    cases e with
    | some err => simp at h
    | none =>
        simp at h
        exact h.2.symm
  have hnonempty : ∀ (hh : Path) (fs fs' : FS) (p : String) (q : Path),
      GetStashPath (some hh) fs p = .ok fs' q → p ≠ emptyStr := by
    intro hh fs fs' p q h hp
    rw [hp] at h
    unfold GetStashPath at h
    rw [if_pos rfl] at h
    exact absurd h (by simp)
  refine ⟨hpath, ?_, ?_, fun hh p => rfl⟩
  · intro hh fs₁ fs₂ fs₁' fs₂' p q₁ q₂ h₁ h₂
    have hp := hnonempty hh fs₁ fs₁' p q₁ h₁
    rw [hpath hh fs₁ p hp fs₁' q₁ h₁, hpath hh fs₂ p hp fs₂' q₂ h₂]
  · intro home fs
    unfold GetStashPath
    rw [if_pos rfl]

theorem stashPath_deterministic_witness :
    stashPathLitW = stashPathFor [homeSeg] projSeg :=
  stashPath_deterministic_spec.1 [homeSeg] fsDirsW projSeg (by decide)
    fsDirsW stashPathLitW rfl

/-! ### Segment-name disjointness lemmas for the round-trip -/

theorem stashFileName_data (p : String) :
    (stashFileName p).data = sCh :: ((chars stashTailStr ++ p.data) ++ chars mdSuffixStr) := by
  obtain ⟨l⟩ := p
  rfl

theorem stashFileName_ne_of_head (p q : String) (h : ∀ l, q.data ≠ sCh :: l) :
    stashFileName p ≠ q := by
  intro he
  have hd := stashFileName_data p
  rw [he] at hd
  exact h _ hd

theorem stashFileName_ne_agents (p : String) : stashFileName p ≠ agentsFileName := by
  apply stashFileName_ne_of_head
  intro l h
  injection h with h1 _
  exact absurd h1 (by decide)

theorem stashFileName_ne_git (p : String) : stashFileName p ≠ gitDirName := by
  apply stashFileName_ne_of_head
  intro l h
  injection h with h1 _
  exact absurd h1 (by decide)

theorem stashFileName_ne_gitignore (p : String) : stashFileName p ≠ gitignoreName := by
  apply stashFileName_ne_of_head
  intro l h
  injection h with h1 _
  exact absurd h1 (by decide)

theorem hasMarker_updateFS (fs : FS) (sp : Path) (n : Node) (p : Path)
    (hg : sp ≠ gitDirName :: p) (hgi : sp ≠ gitignoreName :: p) :
    hasMarker (updateFS fs sp n) p = hasMarker fs p := by
  unfold hasMarker FileExists
  rw [updateFS_ne fs sp n _ (Ne.symm hg), updateFS_ne fs sp n _ (Ne.symm hgi)]

theorem findRoot_updateFS (fs : FS) (sp : Path) (n : Node)
    (hg : ∀ q, sp ≠ gitDirName :: q) (hgi : ∀ q, sp ≠ gitignoreName :: q) :
    ∀ cwd, findRoot (updateFS fs sp n) cwd = findRoot fs cwd := by
  intro cwd
  induction cwd with
  | nil =>
      unfold findRoot
      rw [hasMarker_updateFS fs sp n [] (hg []) (hgi [])]
  | cons s rest ih =>
      unfold findRoot
      rw [hasMarker_updateFS fs sp n (s :: rest) (hg _) (hgi _), ih]

/-! ### Success paths of stash and forced apply -/

/-- Shared reduction: with a resolvable root, a valid local AGENTS.md, and
an unobstructed store, `HandleStash` writes the content to the stash
path. -/
theorem handleStash_success (hh : Path) (cwd : Path) (fs : FS) (root : Path)
    (c : List Char)
    (h1 : GetProjectRoot fs cwd = .ok root)
    (h2 : baseName root ≠ emptyStr)
    (h3 : fs (agentsPathOf root) = some (Node.file c))
    (h4 : IsValidAgents c = some true)
    (h5 : fs (stashesDirOf hh) = some Node.dir)
    (h6 : fs (stashPathFor hh (baseName root)) ≠ some Node.dir) :
    HandleStash (some hh) cwd fs
      = .done (updateFS fs (stashPathFor hh (baseName root)) (Node.file c)) (.ok ()) := by
  have hb : (baseName root != emptyStr) = true := by simpa using h2
  have hfe : FileExists fs (agentsPathOf root) = true := by simp [FileExists, h3]
  have hrd : ReadFile fs (agentsPathOf root) = .ok c := (readFile_eq_ok_iff _ _ _).mpr h3
  have hsp := getStashPath_fast hh fs (baseName root) h2 h5
  have hcp : CopyFile fs (agentsPathOf root) (stashPathFor hh (baseName root))
      = .ok (updateFS fs (stashPathFor hh (baseName root)) (Node.file c)) := by
    unfold CopyFile
    rw [hrd]
    unfold WriteFile
    rcases hq : fs (stashPathFor hh (baseName root)) with _ | n
    · rfl
    · cases n with
      | dir => exact absurd hq h6
      | file d => rfl
  simp only [HandleStash, h1, Assert, hb, if_true, hfe, Bool.not_true,
    Bool.false_eq_true, if_false, hrd, h4, hsp, hcp]

/-- Shared reduction: with the force flag set, a valid non-empty stashed
content, and an unobstructed destination, `HandleApply` writes the stashed
content over the project's AGENTS.md. -/
theorem handleApply_force_success (hh : Path) (input : Option (List Char))
    (cwd : Path) (fs2 : FS) (root : Path) (c : List Char)
    (h1 : GetProjectRoot fs2 cwd = .ok root)
    (h2 : baseName root ≠ emptyStr)
    (h5 : fs2 (stashesDirOf hh) = some Node.dir)
    (hsp : fs2 (stashPathFor hh (baseName root)) = some (Node.file c))
    (hap : fs2 (agentsPathOf root) ≠ some Node.dir)
    (h4 : IsValidAgents c = some true) :
    HandleApply (some hh) input true cwd fs2
      = .done (updateFS fs2 (agentsPathOf root) (Node.file c)) (.ok ()) := by
  have hgs := getStashPath_fast hh fs2 (baseName root) h2 h5
  have hfe : FileExists fs2 (stashPathFor hh (baseName root)) = true := by
    simp [FileExists, hsp]
  have hcond : ((FileExists fs2 (agentsPathOf root) && !true)
      && !getUserConfirmation input) = false := by simp
  rw [handleApply_reaches (some hh) input true cwd fs2 fs2 root
    (stashPathFor hh (baseName root)) h1 h2 hgs hfe hcond]
  have hrd : ReadFile fs2 (stashPathFor hh (baseName root)) = .ok c :=
    (readFile_eq_ok_iff _ _ _).mpr hsp
  have hne : c ≠ [] := ne_nil_of_isValidAgents_true h4
  have hci : c.isEmpty = false := by
    cases c with
    | nil => exact absurd rfl hne
    | cons a as => rfl
  have hcp : CopyFile fs2 (stashPathFor hh (baseName root)) (agentsPathOf root)
      = .ok (updateFS fs2 (agentsPathOf root) (Node.file c)) := by
    unfold CopyFile
    rw [hrd]
    unfold WriteFile
    rcases hq : fs2 (agentsPathOf root) with _ | n
    · rfl
    · cases n with
      | dir => exact absurd hq hap
      | file d => rfl
  simp [applyStashContent, Assert, hfe, hrd, hci, h4, hcp]

/-! ### Claim C6 -/

/-- C6: for a project with a resolvable root, a valid local AGENTS.md, and
an unobstructed store, `stash` writes the content to the stash path and a
subsequent forced `apply` rewrites it to the project root, leaving the
AGENTS.md node there holding exactly the original content. -/
theorem stash_apply_roundtrip (hh : Path) (input : Option (List Char)) (cwd : Path)
    (fs : FS) (root : Path) (c : List Char)
    (h1 : GetProjectRoot fs cwd = .ok root)
    (h2 : baseName root ≠ emptyStr)
    (h3 : fs (agentsPathOf root) = some (Node.file c))
    (h4 : IsValidAgents c = some true)
    (h5 : fs (stashesDirOf hh) = some Node.dir)
    (h6 : fs (stashPathFor hh (baseName root)) ≠ some Node.dir) :
    HandleStash (some hh) cwd fs
      = .done (updateFS fs (stashPathFor hh (baseName root)) (Node.file c)) (.ok ()) ∧
    HandleApply (some hh) input true cwd
        (updateFS fs (stashPathFor hh (baseName root)) (Node.file c))
      = .done (updateFS (updateFS fs (stashPathFor hh (baseName root)) (Node.file c))
          (agentsPathOf root) (Node.file c)) (.ok ()) ∧
    updateFS (updateFS fs (stashPathFor hh (baseName root)) (Node.file c))
        (agentsPathOf root) (Node.file c) (agentsPathOf root)
      = some (Node.file c) := by
  have hg : ∀ q, stashPathFor hh (baseName root) ≠ gitDirName :: q := by
    intro q h
    injection h with hhd _
    exact stashFileName_ne_git (baseName root) hhd
  have hgi : ∀ q, stashPathFor hh (baseName root) ≠ gitignoreName :: q := by
    intro q h
    injection h with hhd _
    exact stashFileName_ne_gitignore (baseName root) hhd
  have hapne : agentsPathOf root ≠ stashPathFor hh (baseName root) := by
    intro h
    injection h with hhd _
    exact stashFileName_ne_agents (baseName root) hhd.symm
  have h1' : GetProjectRoot
      (updateFS fs (stashPathFor hh (baseName root)) (Node.file c)) cwd = .ok root := by
    unfold GetProjectRoot at h1 ⊢
    rw [findRoot_updateFS fs (stashPathFor hh (baseName root)) (Node.file c) hg hgi cwd]
    exact h1
  have h5' : updateFS fs (stashPathFor hh (baseName root)) (Node.file c)
      (stashesDirOf hh) = some Node.dir := by
    have hne : stashesDirOf hh ≠ stashPathFor hh (baseName root) := by
      intro h
      exact List.cons_ne_self (stashFileName (baseName root)) (stashesDirOf hh) h.symm
    rw [updateFS_ne fs (stashPathFor hh (baseName root)) (Node.file c)
      (stashesDirOf hh) hne]
    exact h5
  have hsp' : updateFS fs (stashPathFor hh (baseName root)) (Node.file c)
      (stashPathFor hh (baseName root)) = some (Node.file c) := updateFS_self _ _ _
  have hap' : updateFS fs (stashPathFor hh (baseName root)) (Node.file c)
      (agentsPathOf root) ≠ some Node.dir := by
    rw [updateFS_ne fs (stashPathFor hh (baseName root)) (Node.file c)
      (agentsPathOf root) hapne, h3]
    simp
  refine ⟨handleStash_success hh cwd fs root c h1 h2 h3 h4 h5 h6, ?_, updateFS_self _ _ _⟩
  exact handleApply_force_success hh input cwd _ root c h1' h2 h5' hsp' hap' h4

/-- A filesystem with a `/proj/.git` marker, a valid `/proj/AGENTS.md`
(holding the init template), and the stashes directory. -/
def fsRoundW : FS := fun q =>
  if q = [gitDirName, projSeg] then some Node.dir
  else if q = agentsPathOf [projSeg] then some (Node.file (chars emptyTemplateStr))
  else if q = stashesDirOf [homeSeg] then some Node.dir
  else none

theorem stash_apply_roundtrip_witness :
    HandleStash (some [homeSeg]) [projSeg] fsRoundW
      = .done (updateFS fsRoundW (stashPathFor [homeSeg] (baseName [projSeg]))
          (Node.file (chars emptyTemplateStr))) (.ok ()) ∧
    HandleApply (some [homeSeg]) none true [projSeg]
        (updateFS fsRoundW (stashPathFor [homeSeg] (baseName [projSeg]))
          (Node.file (chars emptyTemplateStr)))
      = .done (updateFS (updateFS fsRoundW (stashPathFor [homeSeg] (baseName [projSeg]))
            (Node.file (chars emptyTemplateStr)))
          (agentsPathOf [projSeg]) (Node.file (chars emptyTemplateStr))) (.ok ()) ∧
    updateFS (updateFS fsRoundW (stashPathFor [homeSeg] (baseName [projSeg]))
          (Node.file (chars emptyTemplateStr)))
        (agentsPathOf [projSeg]) (Node.file (chars emptyTemplateStr))
        (agentsPathOf [projSeg])
      = some (Node.file (chars emptyTemplateStr)) :=
  stash_apply_roundtrip [homeSeg] none [projSeg] fsRoundW [projSeg]
    (chars emptyTemplateStr) rfl (by decide) rfl (by decide) rfl (by decide)

/-! ### Claim C10 -/

/-- The wholly empty filesystem. -/
def fsEmptyW : FS := fun _ => none

/-- C10: both init template variants (the header-only template the current
`HandleInit` writes and the full default template of the other variant)
pass `IsValidAgents`, and a fresh `HandleInit` (no pre-existing file)
always succeeds leaving the header-only template at `AGENTS.md` — so a
stash immediately after a fresh init never aborts on the validation
gate. -/
theorem init_template_valid :
    IsValidAgents (chars emptyTemplateStr) = some true ∧
    IsValidAgents (chars defaultTemplateStr) = some true ∧
    (∀ (force : Bool) (input : Option (List Char)) (cwd : Path) (fs : FS),
      fs (agentsPathOf cwd) = none →
      HandleInit force input cwd fs
        = .done (updateFS fs (agentsPathOf cwd)
            (Node.file (chars emptyTemplateStr))) (.ok ())) := by
  refine ⟨by decide, by decide, ?_⟩
  intro force input cwd fs h
  have hfe : FileExists fs (agentsPathOf cwd) = false := by simp [FileExists, h]
  have hw : WriteFile fs (agentsPathOf cwd) (chars emptyTemplateStr)
      = .ok (updateFS fs (agentsPathOf cwd) (Node.file (chars emptyTemplateStr))) := by
    unfold WriteFile
    rw [h]
  have hasrt : (!(chars emptyTemplateStr).isEmpty) = true := by decide
  simp [HandleInit, hfe, Assert, hasrt, hw]

theorem init_template_valid_witness :
    HandleInit true none [projSeg] fsEmptyW
      = .done (updateFS fsEmptyW (agentsPathOf [projSeg])
          (Node.file (chars emptyTemplateStr))) (.ok ()) :=
  init_template_valid.2.2 true none [projSeg] fsEmptyW rfl

end Agstash
